import Mathlib

/-!
Verification of the universal-deploy deployment pipeline.

The development shallowly embeds the core of the program: paths with
absolute/relative flag and component lists, a symlink-free filesystem model,
an oracle environment supplying the results of external subprocess calls,
and each operation of `git.rs` / `main.rs` as a function returning a result,
a trace of external events, and the updated filesystem.
-/

namespace UDeploy

/-- A filesystem path, modelling Rust PathBuf: whether it is absolute, and
its list of components (which may contain "." and ".."). -/
structure PathBuf where
  absolute : Bool
  components : List String

/-- Rust Path::join: joining an absolute path replaces the base. -/
def PathBuf.join (p q : PathBuf) : PathBuf :=
  if q.absolute then q else ⟨p.absolute, p.components ++ q.components⟩

/-- Rust Path::parent: drop the last component; none when there is no
component left (the root, or the empty path). -/
def PathBuf.parent (p : PathBuf) : Option PathBuf :=
  match p.components with
  | [] => none
  | _ => some ⟨p.absolute, p.components.dropLast⟩

/-- Lexically resolve "." and ".." components (".." at the root stays at
the root), which is what physical canonicalization does on a filesystem
without symbolic links. -/
def normalize (comps : List String) : List String :=
  comps.foldl (fun acc c =>
    if c = "." then acc
    else if c = ".." then acc.dropLast
    else acc ++ [c]) []

/-- Filesystem model: the process's current directory, the set of existing
directories, and the existing files with abstract contents, all keyed by
normalized absolute component lists. Symbolic links are not modelled. -/
structure FS where
  cwd : List String
  dirs : List (List String)
  files : List (List String × Nat)

/-- Absolute normalized form of a path, relative paths being taken against
the current directory. -/
def FS.resolve (fs : FS) (p : PathBuf) : List String :=
  if p.absolute then normalize p.components else normalize (fs.cwd ++ p.components)

/-- Whether a file exists at the given absolute normalized path. -/
def FS.isFile (fs : FS) (q : List String) : Bool :=
  fs.files.any (fun e => e.1 == q)

/-- Whether anything (the root, a directory or a file) exists at the given
absolute normalized path. -/
def FS.pathExists (fs : FS) (q : List String) : Bool :=
  q.isEmpty || fs.dirs.any (fun d => d == q) || fs.isFile q

/-- Contents of the file at the given absolute normalized path, if any. -/
def FS.lookupFile (fs : FS) (q : List String) : Option Nat :=
  (fs.files.find? (fun e => e.1 == q)).map (fun e => e.2)

/-- Rust fs canonicalize on a symlink-free filesystem: the empty relative
path fails; otherwise the resolved path is returned provided it exists. -/
def FS.canonicalize (fs : FS) (p : PathBuf) : Option (List String) :=
  if !p.absolute && p.components.isEmpty then none
  else
    let n := fs.resolve p
    if fs.pathExists n then some n else none

/-- Every nonempty prefix of a component list, used for create_dir_all. -/
def prefixesOf (q : List String) : List (List String) :=
  (List.range q.length).map (fun i => q.take (i + 1))

/-- Rust fs create_dir_all: the directory and all its ancestors exist
afterwards (modelled as always succeeding). -/
def FS.mkdirAll (fs : FS) (p : PathBuf) : FS :=
  ⟨fs.cwd, fs.dirs ++ prefixesOf (fs.resolve p), fs.files⟩

/-- Rust remove_dir_all: delete the directory and everything under it. -/
def FS.removeAll (fs : FS) (p : PathBuf) : FS :=
  ⟨fs.cwd,
   fs.dirs.filter (fun d => !((fs.resolve p).isPrefixOf d)),
   fs.files.filter (fun e => !((fs.resolve p).isPrefixOf e.1))⟩

/-- Effect of a successful git clone: the target directory exists and
contains a .git marker afterwards (the checked-out tree itself is left
abstract, no claim depends on its contents). -/
def FS.cloneInto (fs : FS) (target : PathBuf) : FS :=
  ⟨fs.cwd, fs.dirs ++ [fs.resolve target, fs.resolve target ++ [".git"]], fs.files⟩

/-- Errors of the pipeline, one constructor per distinct error message kind
of git.rs / main.rs. -/
inductive Err where
  | pathTraversal (path base : PathBuf)
  | ioError
  | gitCloneFailed (code : Int)
  | dirtyRepository
  | gitFetchFailed (code : Int)
  | gitMergeFailed (code : Int)
  | toolFailed (tool : String) (code : Int)

/-- External events: each constructor records one subprocess execution or
filesystem mutation performed by the pipeline. -/
inductive Event where
  | gitClone (url branch : String) (target : PathBuf)
  | gitStatus (repo : PathBuf)
  | gitFetch (branch : String) (repo : PathBuf)
  | gitMerge (branch : String) (repo : PathBuf)
  | createDirAll (dir : PathBuf)
  | copyFile (src dst : PathBuf)
  | removeDirAll (dir : PathBuf)
  | spawnTool (tool : String) (args : List String) (repo : PathBuf)

/-- Whether an event is a git subprocess execution. -/
def Event.isGit : Event → Bool
  | gitClone .. => true
  | gitStatus .. => true
  | gitFetch .. => true
  | gitMerge .. => true
  | _ => false

/-- Whether an event is a resource-copy filesystem write. -/
def Event.isFsWrite : Event → Bool
  | createDirAll .. => true
  | copyFile .. => true
  | _ => false

/-- A resource to copy, from config.rs: a source file relative to the
resources directory, and an optional destination path. -/
structure Resource where
  file : PathBuf
  copy_path : Option PathBuf

/-- Tool configuration, from config.rs: either a full command with an
argument list, or a bare command string. -/
inductive ToolConfig where
  | Full (command : String) (args : List String)
  | Simple (cmd : String)

/-- config.rs ToolConfig::command: the command name, none when the command
string is empty in either variant. -/
def ToolConfig.command : ToolConfig → Option String
  | .Simple cmd => if cmd = "" then none else some cmd
  | .Full c _ => if c = "" then none else some c

/-- config.rs ToolConfig::arguments: the argument list of a Full tool. -/
def ToolConfig.arguments : ToolConfig → List String
  | .Full _ a => a
  | .Simple _ => []

/-- The raw command string of either variant, before the emptiness check. -/
def ToolConfig.effectiveCommand : ToolConfig → String
  | .Simple cmd => cmd
  | .Full c _ => c

/-- config.rs Display for ToolConfig: the command, then the arguments
separated by spaces when there are any. -/
def ToolConfig.display : ToolConfig → String
  | .Simple cmd => cmd
  | .Full c a => if a.isEmpty then c else c ++ " " ++ String.intercalate " " a

/-- Release configuration, from config.rs (already validated upstream). -/
structure ReleaseConfig where
  clean : Bool
  repository : String
  branch : String
  merge : Bool
  resources : List Resource
  tool : ToolConfig
  tag : Bool

/-- Oracle environment: the random identifier of this run, and the result
of each external subprocess call the pipeline can make (each is made at
most once per run). none means the process could not be spawned; some c
that it ran and exited with code c. statusDirty reports whether
git status --porcelain printed anything. -/
structure Env where
  uuid : String
  cloneExit : Option Int
  statusDirty : Option Bool
  fetchExit : Option Int
  mergeExit : Option Int
  toolExit : Option Int

/-- Outcome of a pipeline step: its result, the trace of external events it
performed in order, and the filesystem afterwards. -/
structure Out (α : Type) where
  result : Except Err α
  trace : List Event
  fs : FS

/-- git.rs determine_target_path: a fresh uuid-named subdirectory of the
current directory in clean mode, the current directory itself otherwise. -/
def determine_target_path (env : Env) (clean : Bool) (fs : FS) : PathBuf :=
  if clean then ⟨true, fs.cwd ++ [env.uuid]⟩ else ⟨true, fs.cwd⟩

/-- git.rs clone_repository: run git clone for the url and branch into the
target path; nonzero exit is a fatal error carrying the code. -/
def clone_repository (env : Env) (repo_url branch : String) (target_path : PathBuf)
    (fs : FS) : Out Unit :=
  match env.cloneExit with
  | none => ⟨.error .ioError, [], fs⟩
  | some code =>
    if code = 0 then
      ⟨.ok (), [.gitClone repo_url branch target_path], fs.cloneInto target_path⟩
    else
      ⟨.error (.gitCloneFailed code), [.gitClone repo_url branch target_path], fs⟩

/-- git.rs update_repository: query git status first and abort on
uncommitted changes; then fetch the branch from origin; then merge
origin/branch; each nonzero exit is fatal with its code. -/
def update_repository (env : Env) (branch : String) (repo_path : PathBuf)
    (fs : FS) : Out Unit :=
  match env.statusDirty with
  | none => ⟨.error .ioError, [], fs⟩
  | some dirty =>
    if dirty then
      ⟨.error .dirtyRepository, [.gitStatus repo_path], fs⟩
    else
      match env.fetchExit with
      | none => ⟨.error .ioError, [.gitStatus repo_path], fs⟩
      | some fcode =>
        if fcode = 0 then
          match env.mergeExit with
          | none => ⟨.error .ioError, [.gitStatus repo_path, .gitFetch branch repo_path], fs⟩
          | some mcode =>
            if mcode = 0 then
              ⟨.ok (),
               [.gitStatus repo_path, .gitFetch branch repo_path, .gitMerge branch repo_path],
               fs⟩
            else
              ⟨.error (.gitMergeFailed mcode),
               [.gitStatus repo_path, .gitFetch branch repo_path, .gitMerge branch repo_path],
               fs⟩
        else
          ⟨.error (.gitFetchFailed fcode), [.gitStatus repo_path, .gitFetch branch repo_path], fs⟩

/-- The resources sandbox root: the resources directory next to the config
file. -/
def resourcesDir (config_dir : PathBuf) : PathBuf :=
  config_dir.join ⟨false, ["resources"]⟩

/-- Source path of a resource: config_dir/resources/file. -/
def sourcePathOf (config_dir : PathBuf) (r : Resource) : PathBuf :=
  (resourcesDir config_dir).join r.file

/-- Destination path of a resource: target/(copy_path or file). -/
def destPathOf (target_path : PathBuf) (r : Resource) : PathBuf :=
  target_path.join (r.copy_path.getD r.file)

/-- The canonical path computed by validate_path: the path itself when it
exists, otherwise its parent. -/
def resolvedVia (fs : FS) (path : PathBuf) : Option (List String) :=
  match fs.canonicalize path with
  | some c => some c
  | none =>
    match path.parent with
    | some par => fs.canonicalize par
    | none => none

/-- git.rs validate_path: canonicalize the path (falling back to its parent
when the path does not exist yet), canonicalize the base, and require the
canonical path to start with the canonical base. -/
def validate_path (fs : FS) (path base : PathBuf) : Except Err Unit :=
  match resolvedVia fs path with
  | none => .error .ioError
  | some canonical_path =>
    match fs.canonicalize base with
    | none => .error .ioError
    | some canonical_base =>
      if canonical_base.isPrefixOf canonical_path then .ok ()
      else .error (.pathTraversal path base)

/-- Whether the path, as resolved by validate_path, canonicalizes outside
the sandbox base (false when either canonicalization fails). -/
def outsideSandbox (fs : FS) (path base : PathBuf) : Bool :=
  match resolvedVia fs path, fs.canonicalize base with
  | some cp, some cb => !(cb.isPrefixOf cp)
  | _, _ => false

/-- Rust fs copy: read the source file and write its bytes over the
destination, overwriting any previous contents; fails when the source is
not an existing file. -/
def FS.copy (fs : FS) (src dst : PathBuf) : Except Err FS :=
  match fs.lookupFile (fs.resolve src) with
  | none => .error .ioError
  | some v =>
    .ok ⟨fs.cwd, fs.dirs,
         (fs.resolve dst, v) :: fs.files.filter (fun e => !(e.1 == fs.resolve dst))⟩

/-- git.rs copy_single_resource: build the source and destination paths,
validate both against their sandbox roots, create the destination parent
directories, then copy the file. -/
def copy_single_resource (fs : FS) (config_dir target_path : PathBuf)
    (r : Resource) : Out Unit :=
  let source_path := sourcePathOf config_dir r
  let dest_path := destPathOf target_path r
  match validate_path fs source_path (resourcesDir config_dir) with
  | .error e => ⟨.error e, [], fs⟩
  | .ok _ =>
    match validate_path fs dest_path target_path with
    | .error e => ⟨.error e, [], fs⟩
    | .ok _ =>
      let step : FS × List Event :=
        match dest_path.parent with
        | some par => (fs.mkdirAll par, [.createDirAll par])
        | none => (fs, [])
      match step.1.copy source_path dest_path with
      | .error e => ⟨.error e, step.2, step.1⟩
      | .ok fs2 => ⟨.ok (), step.2 ++ [.copyFile source_path dest_path], fs2⟩

/-- The loop body of git.rs copy_resources: copy each resource in order,
stopping at the first failure. -/
def copyLoop (config_dir target_path : PathBuf) : List Resource → FS → Out Unit
  | [], fs => ⟨.ok (), [], fs⟩
  | r :: rest, fs =>
    let o := copy_single_resource fs config_dir target_path r
    match o.result with
    | .error e => ⟨.error e, o.trace, o.fs⟩
    | .ok _ =>
      let o2 := copyLoop config_dir target_path rest o.fs
      ⟨o2.result, o.trace ++ o2.trace, o2.fs⟩

/-- git.rs copy_resources: the config directory is the parent of the config
file (or "." when it has none); each resource is copied in order. -/
def configDirOf (config_path : PathBuf) : PathBuf :=
  (config_path.parent).getD ⟨false, ["."]⟩

/-- git.rs copy_resources applied to a resource list. -/
def copy_resources (fs : FS) (config_path target_path : PathBuf)
    (resources : List Resource) : Out Unit :=
  copyLoop (configDirOf config_path) target_path resources fs

/-- The clone-or-reuse branch of git.rs checkout_repository: clean mode
always clones; otherwise an existing .git marker means reuse (updating when
merge is set) and a missing one means clone. -/
def checkoutPhase1 (env : Env) (fs : FS) (repo_url branch : String)
    (clean merge : Bool) (target_path : PathBuf) : Out Unit :=
  if clean then
    clone_repository env repo_url branch target_path fs
  else
    if fs.pathExists (fs.resolve (target_path.join ⟨false, [".git"]⟩)) then
      if merge then update_repository env branch target_path fs
      else ⟨.ok (), [], fs⟩
    else
      clone_repository env repo_url branch target_path fs

/-- The post-clone step of git.rs checkout_repository: when clean and merge
are both set, an update is additionally performed. -/
def checkoutPhase2 (env : Env) (branch : String) (clean merge : Bool)
    (target_path : PathBuf) (fs : FS) : Out Unit :=
  if clean && merge then update_repository env branch target_path fs
  else ⟨.ok (), [], fs⟩

/-- git.rs checkout_repository: resolve the target path, clone or
reuse/update according to clean and the .git marker, optionally update
after a clean clone when merge is set, then copy the resources. -/
def checkout_repository (env : Env) (fs : FS) (config_path : PathBuf)
    (repo_url branch : String) (clean merge : Bool)
    (resources : List Resource) : Out PathBuf :=
  let target_path := determine_target_path env clean fs
  let phase1 := checkoutPhase1 env fs repo_url branch clean merge target_path
  match phase1.result with
  | .error e => ⟨.error e, phase1.trace, phase1.fs⟩
  | .ok _ =>
    let phase2 := checkoutPhase2 env branch clean merge target_path phase1.fs
    match phase2.result with
    | .error e => ⟨.error e, phase1.trace ++ phase2.trace, phase2.fs⟩
    | .ok _ =>
      let phase3 := copy_resources phase2.fs config_path target_path resources
      match phase3.result with
      | .error e => ⟨.error e, phase1.trace ++ phase2.trace ++ phase3.trace, phase3.fs⟩
      | .ok _ => ⟨.ok target_path, phase1.trace ++ phase2.trace ++ phase3.trace, phase3.fs⟩

/-- git.rs execute_tool: an empty command returns exit code 0 at once with
no subprocess; otherwise the tool is spawned in the repository directory
and its exit code returned. -/
def execute_tool (env : Env) (tool_name : String) (args : List String)
    (repo_path : PathBuf) (fs : FS) : Out Int :=
  if tool_name = "" then ⟨.ok 0, [], fs⟩
  else
    match env.toolExit with
    | none => ⟨.error .ioError, [], fs⟩
    | some code => ⟨.ok code, [.spawnTool tool_name args repo_path], fs⟩

/-- main.rs cleanup block: remove the checkout directory when in clean mode
and keep-checkout was not requested (a removal failure is only a warning,
modelled as the removal succeeding). -/
def cleanupStep (clean keep_checkout : Bool) (repo_path : PathBuf)
    (fs : FS) : FS × List Event :=
  if clean && !keep_checkout then (fs.removeAll repo_path, [.removeDirAll repo_path])
  else (fs, [])

/-- main.rs run_deployment from the checkout onward (the configuration is
loaded and validated upstream): check out, run the tool when one is
configured, clean up, and return the recorded tool failure if any. A tool
spawn failure propagates at once and skips cleanup; a nonzero tool exit is
recorded, cleanup runs, and the failure is the final result. -/
def run_deployment (env : Env) (fs : FS) (config_path : PathBuf)
    (config : ReleaseConfig) (keep_checkout : Bool) : Out Unit :=
  let co := checkout_repository env fs config_path config.repository config.branch
      config.clean config.merge config.resources
  match co.result with
  | .error e => ⟨.error e, co.trace, co.fs⟩
  | .ok repo_path =>
    let tool_step : Out (Except Err Unit) :=
      match config.tool.command with
      | some cmd =>
        let t := execute_tool env cmd config.tool.arguments repo_path co.fs
        match t.result with
        | .error e => ⟨.error e, t.trace, t.fs⟩
        | .ok code =>
          if code ≠ 0 then
            ⟨.ok (.error (.toolFailed config.tool.display code)), t.trace, t.fs⟩
          else ⟨.ok (.ok ()), t.trace, t.fs⟩
      | none => ⟨.ok (.ok ()), [], co.fs⟩
    match tool_step.result with
    | .error e => ⟨.error e, co.trace ++ tool_step.trace, tool_step.fs⟩
    | .ok tool_result =>
      let cl := cleanupStep config.clean keep_checkout repo_path tool_step.fs
      ⟨tool_result, co.trace ++ tool_step.trace ++ cl.2, cl.1⟩

deriving instance DecidableEq for Except

deriving instance DecidableEq for PathBuf

deriving instance DecidableEq for FS

deriving instance DecidableEq for Err

deriving instance DecidableEq for Event

deriving instance DecidableEq for Resource

deriving instance DecidableEq for ToolConfig

deriving instance DecidableEq for ReleaseConfig

deriving instance DecidableEq for Env

deriving instance DecidableEq for Out

/-- Sample filesystem: a home directory holding the config directory with
its resources sandbox, a working directory with one stale file, and a .git
marker directly under home. -/
def fsW : FS :=
  ⟨["home"],
   [["home"], ["home", "cfg"], ["home", "cfg", "resources"], ["home", "wd"], ["home", ".git"]],
   [(["home", "cfg", "resources", "a.txt"], 7), (["home", "wd", "old.txt"], 3)]⟩

/-- Sample config file path. -/
def cfgPathW : PathBuf := ⟨true, ["home", "cfg", "deploy.yaml"]⟩

/-- Sample config directory (parent of the config file). -/
def cfgDirW : PathBuf := configDirOf cfgPathW

/-- Sample working directory. -/
def wdW : PathBuf := ⟨true, ["home", "wd"]⟩

/-- A well-behaved resource: a.txt copied to the working-directory root. -/
def rGoodW : Resource := ⟨⟨false, ["a.txt"]⟩, none⟩

/-- A traversal resource: its destination escapes the working directory. -/
def rEvilW : Resource := ⟨⟨false, ["a.txt"]⟩, some ⟨false, ["..", "evil.txt"]⟩⟩

/-- A resource whose destination parent directory does not exist yet. -/
def rDeepW : Resource := ⟨⟨false, ["a.txt"]⟩, some ⟨false, ["sub", "dir", "a.txt"]⟩⟩

/-- Sample environment: clone, status, fetch and merge succeed cleanly; the
tool runs and exits with code 2. -/
def envW : Env := ⟨"u1", some 0, some false, some 0, some 0, some 2⟩

/-- Sample environment reporting uncommitted changes on git status. -/
def envDirtyW : Env := ⟨"u1", some 0, some true, some 0, some 0, some 0⟩

/-- When outsideSandbox holds, validate_path rejects with a PathTraversal
error naming the path and base. -/
theorem validate_of_outside {fs : FS} {path base : PathBuf}
    (h : outsideSandbox fs path base = true) :
    validate_path fs path base = .error (.pathTraversal path base) := by
  unfold outsideSandbox at h
  unfold validate_path
  cases hp : resolvedVia fs path with
  | none => rw [hp] at h; simp at h
  | some cp =>
    cases hb : fs.canonicalize base with
    | none => rw [hp, hb] at h; simp at h
    | some cb =>
      rw [hp, hb] at h
      simp only [Bool.not_eq_true'] at h
      simp [h]

/-- The trace of an update is always an initial segment of the sequence
status, fetch, merge. -/
theorem update_trace_ordered (env : Env) (branch : String) (repo_path : PathBuf) (fs : FS) :
    (update_repository env branch repo_path fs).trace <+:
      [Event.gitStatus repo_path, Event.gitFetch branch repo_path,
       Event.gitMerge branch repo_path] := by
  rcases env with ⟨u, ce, sd, fe, me, te⟩
  rcases sd with _ | b
  · exact ⟨_, rfl⟩
  rcases b
  · rcases fe with _ | fc
    · exact ⟨_, rfl⟩
    by_cases hf0 : fc = 0
    · subst hf0
      rcases me with _ | mc
      · exact ⟨_, rfl⟩
      by_cases hm0 : mc = 0
      · subst hm0; exact ⟨_, rfl⟩
      · simp only [update_repository, if_neg hm0]
        exact ⟨_, rfl⟩
    · simp only [update_repository, if_neg hf0]
      exact ⟨_, rfl⟩
  · exact ⟨_, rfl⟩

/-- A tool with a configured command has a nonempty command string. -/
theorem command_ne_empty {t : ToolConfig} {c : String} (h : t.command = some c) :
    c ≠ "" := by
  cases t with
  | Simple cmd =>
    by_cases hc : cmd = ""
    · simp [ToolConfig.command, hc] at h
    · simp [ToolConfig.command, hc] at h
      subst h; exact hc
  | Full cmd args =>
    by_cases hc : cmd = ""
    · simp [ToolConfig.command, hc] at h
    · simp [ToolConfig.command, hc] at h
      subst h; exact hc

/-- A tool whose raw command string is empty has no configured command. -/
theorem command_none_of_empty {t : ToolConfig} (h : t.effectiveCommand = "") :
    t.command = none := by
  cases t with
  | Simple cmd => simp [ToolConfig.effectiveCommand] at h; simp [ToolConfig.command, h]
  | Full cmd args => simp [ToolConfig.effectiveCommand] at h; simp [ToolConfig.command, h]

/-- All clone events are git subprocess events. -/
theorem clone_trace_git (env : Env) (u b : String) (t : PathBuf) (fs : FS) :
    ∀ e ∈ (clone_repository env u b t fs).trace, e.isGit = true := by
  intro e he
  cases hc : env.cloneExit with
  | none => simp [clone_repository, hc] at he
  | some c =>
    by_cases h0 : c = 0 <;> simp [clone_repository, hc, h0] at he <;>
      simp [he, Event.isGit]

/-- All update events are git subprocess events. -/
theorem update_trace_git (env : Env) (b : String) (rp : PathBuf) (fs : FS) :
    ∀ e ∈ (update_repository env b rp fs).trace, e.isGit = true := by
  intro e he
  have h := (update_trace_ordered env b rp fs).sublist.subset he
  simp only [List.mem_cons, List.not_mem_nil, or_false] at h
  rcases h with rfl | rfl | rfl <;> rfl

/-- All events of a single resource copy are filesystem writes. -/
theorem copy_single_trace_write (fs : FS) (cfg tgt : PathBuf) (r : Resource) :
    ∀ e ∈ (copy_single_resource fs cfg tgt r).trace, e.isFsWrite = true := by
  intro e he
  cases hv1 : validate_path fs (sourcePathOf cfg r) (resourcesDir cfg) with
  | error e1 => simp [copy_single_resource, hv1] at he
  | ok u1 =>
    cases hv2 : validate_path fs (destPathOf tgt r) tgt with
    | error e2 => simp [copy_single_resource, hv1, hv2] at he
    | ok u2 =>
      cases hp : (destPathOf tgt r).parent with
      | none =>
        cases hcp : FS.copy fs (sourcePathOf cfg r) (destPathOf tgt r) with
        | error e3 => simp [copy_single_resource, hv1, hv2, hp, hcp] at he
        | ok fs2 =>
          simp [copy_single_resource, hv1, hv2, hp, hcp] at he
          simp [he, Event.isFsWrite]
      | some par =>
        cases hcp : FS.copy (fs.mkdirAll par) (sourcePathOf cfg r) (destPathOf tgt r) with
        | error e3 =>
          simp [copy_single_resource, hv1, hv2, hp, hcp] at he
          simp [he, Event.isFsWrite]
        | ok fs2 =>
          simp [copy_single_resource, hv1, hv2, hp, hcp] at he
          rcases he with rfl | rfl <;> rfl

/-- All events of the resource-copy loop are filesystem writes. -/
theorem copyLoop_trace_write (cfg tgt : PathBuf) (rs : List Resource) :
    ∀ (fs : FS), ∀ e ∈ (copyLoop cfg tgt rs fs).trace, e.isFsWrite = true := by
  induction rs with
  | nil => intro fs e he; simp [copyLoop] at he
  | cons r rest ih =>
    intro fs e he
    simp only [copyLoop] at he
    cases hr : (copy_single_resource fs cfg tgt r).result with
    | error e1 =>
      simp only [hr] at he
      exact copy_single_trace_write fs cfg tgt r e he
    | ok u =>
      simp only [hr, List.mem_append] at he
      rcases he with he | he
      · exact copy_single_trace_write fs cfg tgt r e he
      · exact ih (copy_single_resource fs cfg tgt r).fs e he

/-- All events of phase 1 of the checkout are git events. -/
theorem checkoutPhase1_git (env : Env) (fs : FS) (u b : String) (clean merge : Bool)
    (tp : PathBuf) :
    ∀ e ∈ (checkoutPhase1 env fs u b clean merge tp).trace, e.isGit = true := by
  intro e he
  cases clean with
  | true =>
    simp only [checkoutPhase1, if_true] at he
    exact clone_trace_git env u b tp fs e he
  | false =>
    simp only [checkoutPhase1, Bool.false_eq_true, if_false] at he
    by_cases hm : fs.pathExists (fs.resolve (tp.join ⟨false, [".git"]⟩)) = true
    · rw [if_pos hm] at he
      cases merge with
      | true => exact update_trace_git env b tp fs e he
      | false => simp at he
    · rw [if_neg hm] at he
      exact clone_trace_git env u b tp fs e he

/-- All events of phase 2 of the checkout are git events. -/
theorem checkoutPhase2_git (env : Env) (b : String) (clean merge : Bool)
    (tp : PathBuf) (fs : FS) :
    ∀ e ∈ (checkoutPhase2 env b clean merge tp fs).trace, e.isGit = true := by
  intro e he
  by_cases h : (clean && merge) = true
  · simp only [checkoutPhase2, if_pos h] at he
    exact update_trace_git env b tp fs e he
  · simp only [checkoutPhase2, if_neg h] at he
    simp at he

/-- Every event of a checkout is a git subprocess or a resource-copy
filesystem write: in particular no removal and no tool spawn occurs. -/
theorem checkout_trace_kinds (env : Env) (fs : FS) (cp : PathBuf) (u b : String)
    (clean merge : Bool) (rs : List Resource) :
    ∀ e ∈ (checkout_repository env fs cp u b clean merge rs).trace,
      e.isGit = true ∨ e.isFsWrite = true := by
  intro e he
  simp only [checkout_repository] at he
  cases h1 : (checkoutPhase1 env fs u b clean merge (determine_target_path env clean fs)).result with
  | error e1 =>
    simp only [h1] at he
    exact Or.inl (checkoutPhase1_git env fs u b clean merge _ e he)
  | ok u1 =>
    simp only [h1] at he
    cases h2 : (checkoutPhase2 env b clean merge (determine_target_path env clean fs)
        (checkoutPhase1 env fs u b clean merge (determine_target_path env clean fs)).fs).result with
    | error e2 =>
      simp only [h2, List.mem_append] at he
      rcases he with he | he
      · exact Or.inl (checkoutPhase1_git env fs u b clean merge _ e he)
      · exact Or.inl (checkoutPhase2_git env b clean merge _ _ e he)
    | ok u2 =>
      simp only [h2] at he
      cases h3 : (copy_resources
          (checkoutPhase2 env b clean merge (determine_target_path env clean fs)
            (checkoutPhase1 env fs u b clean merge (determine_target_path env clean fs)).fs).fs
          cp (determine_target_path env clean fs) rs).result with
      | error e3 =>
        simp only [h3, List.mem_append] at he
        rcases he with (he | he) | he
        · exact Or.inl (checkoutPhase1_git env fs u b clean merge _ e he)
        · exact Or.inl (checkoutPhase2_git env b clean merge _ _ e he)
        · exact Or.inr (copyLoop_trace_write _ _ rs _ e he)
      | ok u3 =>
        simp only [h3, List.mem_append] at he
        rcases he with (he | he) | he
        · exact Or.inl (checkoutPhase1_git env fs u b clean merge _ e he)
        · exact Or.inl (checkoutPhase2_git env b clean merge _ _ e he)
        · exact Or.inr (copyLoop_trace_write _ _ rs _ e he)

/-- A filesystem-write event is not a git event. -/
theorem isGit_false_of_write {e : Event} (h : e.isFsWrite = true) : e.isGit = false := by
  cases e <;> simp [Event.isFsWrite, Event.isGit] at h ⊢

/-- Cleanup emits at most the removal of the checkout directory. -/
theorem cleanup_trace (c k : Bool) (rp : PathBuf) (fs : FS) :
    ∀ e ∈ (cleanupStep c k rp fs).2, e = Event.removeDirAll rp := by
  intro e he
  unfold cleanupStep at he
  by_cases h : (c && !k) = true
  · rw [if_pos h] at he
    simpa using he
  · rw [if_neg h] at he
    simp at he

/-- C1: for a resource whose resolved source or resolved destination
canonicalizes outside its sandbox root, the copy fails with a PathTraversal
error naming the offending path and base, performs no event, and leaves the
filesystem unchanged: validation precedes any directory creation or copy. -/
theorem C1_path_traversal_rejected (fs : FS) (config_dir target_path : PathBuf)
    (r : Resource)
    (h : outsideSandbox fs (sourcePathOf config_dir r) (resourcesDir config_dir) = true ∨
      (validate_path fs (sourcePathOf config_dir r) (resourcesDir config_dir) = .ok () ∧
       outsideSandbox fs (destPathOf target_path r) target_path = true)) :
    ∃ p b,
      copy_single_resource fs config_dir target_path r =
        ⟨.error (.pathTraversal p b), [], fs⟩ ∧
      ((p = sourcePathOf config_dir r ∧ b = resourcesDir config_dir) ∨
       (p = destPathOf target_path r ∧ b = target_path)) ∧
      outsideSandbox fs p b = true := by
  rcases h with h | ⟨hok, h⟩
  · refine ⟨sourcePathOf config_dir r, resourcesDir config_dir, ?_, Or.inl ⟨rfl, rfl⟩, h⟩
    simp only [copy_single_resource, validate_of_outside h]
  · refine ⟨destPathOf target_path r, target_path, ?_, Or.inr ⟨rfl, rfl⟩, h⟩
    simp only [copy_single_resource, hok, validate_of_outside h]

/-- C1 witness: the traversal resource is rejected on the sample data. -/
theorem C1_witness :
    (validate_path fsW (sourcePathOf cfgDirW rEvilW) (resourcesDir cfgDirW) = .ok () ∧
     outsideSandbox fsW (destPathOf wdW rEvilW) wdW = true) ∧
    ∃ p b,
      copy_single_resource fsW cfgDirW wdW rEvilW = ⟨.error (.pathTraversal p b), [], fsW⟩ ∧
      ((p = sourcePathOf cfgDirW rEvilW ∧ b = resourcesDir cfgDirW) ∨
       (p = destPathOf wdW rEvilW ∧ b = wdW)) ∧
      outsideSandbox fsW p b = true :=
  ⟨⟨by decide, by decide⟩,
   C1_path_traversal_rejected fsW cfgDirW wdW rEvilW (Or.inr ⟨by decide, by decide⟩)⟩

/-- C4: every update queries the working-directory status first: the update
trace is an initial segment of status, fetch, merge (so on a clean status
the fetch of the branch precedes the merge), and a dirty status aborts with
DirtyRepository with only the status query performed. -/
theorem C4_update_status_first (env : Env) (branch : String) (repo_path : PathBuf) (fs : FS) :
    (update_repository env branch repo_path fs).trace <+:
      [Event.gitStatus repo_path, Event.gitFetch branch repo_path,
       Event.gitMerge branch repo_path] ∧
    (env.statusDirty = some true →
      (update_repository env branch repo_path fs).result = .error .dirtyRepository ∧
      (update_repository env branch repo_path fs).trace = [Event.gitStatus repo_path]) := by
  refine ⟨update_trace_ordered env branch repo_path fs, fun hd => ?_⟩
  unfold update_repository
  rw [hd]
  exact ⟨rfl, rfl⟩

/-- C4 witness: a dirty status on the sample data aborts the update with
DirtyRepository after only the status query. -/
theorem C4_witness :
    (update_repository envDirtyW "main" wdW fsW).result = .error .dirtyRepository ∧
    (update_repository envDirtyW "main" wdW fsW).trace = [Event.gitStatus wdW] :=
  (C4_update_status_first envDirtyW "main" wdW fsW).2 rfl

/-- Sample release configuration: clean mode, make as the tool. -/
def cfgToolW : ReleaseConfig := ⟨true, "url", "main", false, [], .Simple "make", false⟩

/-- Sample release configuration whose tool is a Full variant with an empty
command and a nonempty argument list. -/
def cfgEmptyToolW : ReleaseConfig := ⟨true, "url", "main", false, [], .Full "" ["x"], false⟩

/-- Sample environment whose git clone exits with code 128. -/
def envCloneFailW : Env := ⟨"u1", some 128, some false, some 0, some 0, some 0⟩

/-- Sample environment where the tool subprocess cannot be spawned. -/
def envSpawnFailW : Env := ⟨"u1", some 0, some false, some 0, some 0, none⟩

/-- C2: when the configured tool runs and exits nonzero, the pipeline does
not abort at that point: cleanup (when clean is set and keep is not) still
runs afterward, and the final result is the tool failure carrying the
displayed command and the exit code. -/
theorem C2_tool_failure_deferred (env : Env) (fs : FS) (config_path : PathBuf)
    (config : ReleaseConfig) (keep : Bool) (repo_path : PathBuf) (tr1 : List Event)
    (fs1 : FS) (cmd : String) (code : Int)
    (hco : checkout_repository env fs config_path config.repository config.branch
        config.clean config.merge config.resources = ⟨.ok repo_path, tr1, fs1⟩)
    (hcmd : config.tool.command = some cmd)
    (hrun : env.toolExit = some code) (hnz : code ≠ 0) :
    run_deployment env fs config_path config keep =
      ⟨.error (.toolFailed config.tool.display code),
       tr1 ++ [Event.spawnTool cmd config.tool.arguments repo_path] ++
         (cleanupStep config.clean keep repo_path fs1).2,
       (cleanupStep config.clean keep repo_path fs1).1⟩ := by
  have hne : cmd ≠ "" := command_ne_empty hcmd
  simp only [run_deployment, hco, hcmd, execute_tool, if_neg hne, hrun, if_pos hnz]

/-- C2 witness: on the sample data the tool exits with code 2 and the
pipeline removes the clean-mode checkout and reports the tool failure. -/
theorem C2_witness :
    run_deployment envW fsW cfgPathW cfgToolW false =
      ⟨.error (.toolFailed cfgToolW.tool.display 2),
       [Event.gitClone "url" "main" ⟨true, ["home", "u1"]⟩] ++
         [Event.spawnTool "make" [] ⟨true, ["home", "u1"]⟩] ++
         (cleanupStep true false ⟨true, ["home", "u1"]⟩
           (fsW.cloneInto ⟨true, ["home", "u1"]⟩)).2,
       (cleanupStep true false ⟨true, ["home", "u1"]⟩
         (fsW.cloneInto ⟨true, ["home", "u1"]⟩)).1⟩ :=
  C2_tool_failure_deferred envW fsW cfgPathW cfgToolW false ⟨true, ["home", "u1"]⟩
    [Event.gitClone "url" "main" ⟨true, ["home", "u1"]⟩]
    (fsW.cloneInto ⟨true, ["home", "u1"]⟩) "make" 2 rfl rfl rfl (by decide)

/-- C5: when the checkout/update or resource-copy step fails, the pipeline
ends at that point with exactly the checkout outcome: the working directory
and any files already copied into it are left untouched, and no removal
event ever occurs in the trace. -/
theorem C5_no_cleanup_on_checkout_failure (env : Env) (fs : FS) (config_path : PathBuf)
    (config : ReleaseConfig) (keep : Bool) (e : Err)
    (hco : (checkout_repository env fs config_path config.repository config.branch
        config.clean config.merge config.resources).result = .error e) :
    run_deployment env fs config_path config keep =
      ⟨.error e,
       (checkout_repository env fs config_path config.repository config.branch
          config.clean config.merge config.resources).trace,
       (checkout_repository env fs config_path config.repository config.branch
          config.clean config.merge config.resources).fs⟩ ∧
    ∀ p, Event.removeDirAll p ∉ (run_deployment env fs config_path config keep).trace := by
  have heq : run_deployment env fs config_path config keep =
      ⟨.error e,
       (checkout_repository env fs config_path config.repository config.branch
          config.clean config.merge config.resources).trace,
       (checkout_repository env fs config_path config.repository config.branch
          config.clean config.merge config.resources).fs⟩ := by
    simp only [run_deployment, hco]
  refine ⟨heq, fun p hp => ?_⟩
  rw [heq] at hp
  rcases checkout_trace_kinds env fs config_path config.repository config.branch
      config.clean config.merge config.resources _ hp with hg | hw
  · simp [Event.isGit] at hg
  · simp [Event.isFsWrite] at hw

/-- C5 witness: a failing clone ends the sample pipeline with the clone
error, the filesystem exactly as the checkout left it, and no removal. -/
theorem C5_witness :
    (run_deployment envCloneFailW fsW cfgPathW cfgToolW false =
      ⟨.error (.gitCloneFailed 128),
       (checkout_repository envCloneFailW fsW cfgPathW cfgToolW.repository cfgToolW.branch
          cfgToolW.clean cfgToolW.merge cfgToolW.resources).trace,
       (checkout_repository envCloneFailW fsW cfgPathW cfgToolW.repository cfgToolW.branch
          cfgToolW.clean cfgToolW.merge cfgToolW.resources).fs⟩) ∧
    ∀ p, Event.removeDirAll p ∉
      (run_deployment envCloneFailW fsW cfgPathW cfgToolW false).trace :=
  C5_no_cleanup_on_checkout_failure envCloneFailW fsW cfgPathW cfgToolW false
    (.gitCloneFailed 128) rfl

/-- C6: when the tool subprocess cannot be spawned at all, that error is
returned immediately and cleanup is skipped: the filesystem stays exactly
as the checkout left it, with no removal event, even in clean mode with
keep not requested. -/
theorem C6_spawn_failure_skips_cleanup (env : Env) (fs : FS) (config_path : PathBuf)
    (config : ReleaseConfig) (keep : Bool) (repo_path : PathBuf) (tr1 : List Event)
    (fs1 : FS) (cmd : String)
    (hco : checkout_repository env fs config_path config.repository config.branch
        config.clean config.merge config.resources = ⟨.ok repo_path, tr1, fs1⟩)
    (hcmd : config.tool.command = some cmd)
    (hspawn : env.toolExit = none)
    (hclean : config.clean = true) (hkeep : keep = false) :
    run_deployment env fs config_path config keep = ⟨.error .ioError, tr1, fs1⟩ ∧
    ∀ p, Event.removeDirAll p ∉ (run_deployment env fs config_path config keep).trace := by
  have hne : cmd ≠ "" := command_ne_empty hcmd
  have heq : run_deployment env fs config_path config keep = ⟨.error .ioError, tr1, fs1⟩ := by
    simp only [run_deployment, hco, hcmd, execute_tool, if_neg hne, hspawn, List.append_nil]
  refine ⟨heq, fun p hp => ?_⟩
  rw [heq] at hp
  have hk := checkout_trace_kinds env fs config_path config.repository config.branch
      config.clean config.merge config.resources (Event.removeDirAll p)
  rw [hco] at hk
  rcases hk hp with hg | hw
  · simp [Event.isGit] at hg
  · simp [Event.isFsWrite] at hw

/-- C6 witness: on the sample data a tool spawn failure surfaces the io
error and leaves the cloned clean-mode directory on disk. -/
theorem C6_witness :
    run_deployment envSpawnFailW fsW cfgPathW cfgToolW false =
      ⟨.error .ioError, [Event.gitClone "url" "main" ⟨true, ["home", "u1"]⟩],
       fsW.cloneInto ⟨true, ["home", "u1"]⟩⟩ ∧
    ∀ p, Event.removeDirAll p ∉
      (run_deployment envSpawnFailW fsW cfgPathW cfgToolW false).trace :=
  C6_spawn_failure_skips_cleanup envSpawnFailW fsW cfgPathW cfgToolW false
    ⟨true, ["home", "u1"]⟩ [Event.gitClone "url" "main" ⟨true, ["home", "u1"]⟩]
    (fsW.cloneInto ⟨true, ["home", "u1"]⟩) "make" rfl rfl rfl rfl rfl

/-- C7: a tool whose effective command is the empty string, in any variant,
has no configured command, makes the tool step return exit code 0 at once
with no subprocess in any state, leaves no spawn event in the pipeline
trace, and the pipeline result is success whenever the checkout succeeds. -/
theorem C7_empty_tool_succeeds (env : Env) (fs : FS) (config_path : PathBuf)
    (config : ReleaseConfig) (keep : Bool)
    (hempty : config.tool.effectiveCommand = "") :
    config.tool.command = none ∧
    (∀ (env2 : Env) (fs2 : FS) (repo : PathBuf) (args : List String),
      execute_tool env2 config.tool.effectiveCommand args repo fs2 = ⟨.ok 0, [], fs2⟩) ∧
    (∀ t a rp, Event.spawnTool t a rp ∉ (run_deployment env fs config_path config keep).trace) ∧
    (∀ (repo_path : PathBuf) (tr1 : List Event) (fs1 : FS),
      checkout_repository env fs config_path config.repository config.branch
          config.clean config.merge config.resources = ⟨.ok repo_path, tr1, fs1⟩ →
      (run_deployment env fs config_path config keep).result = .ok ()) := by
  have hnone : config.tool.command = none := command_none_of_empty hempty
  refine ⟨hnone, ?_, ?_, ?_⟩
  · intro env2 fs2 repo args
    rw [hempty]
    simp [execute_tool]
  · intro t a rp hp
    simp only [run_deployment, hnone] at hp
    cases h1 : (checkout_repository env fs config_path config.repository config.branch
        config.clean config.merge config.resources).result with
    | error e1 =>
      simp only [h1] at hp
      rcases checkout_trace_kinds env fs config_path config.repository config.branch
          config.clean config.merge config.resources _ hp with hg | hw
      · simp [Event.isGit] at hg
      · simp [Event.isFsWrite] at hw
    | ok repo1 =>
      simp only [h1, List.append_nil, List.mem_append] at hp
      rcases hp with hp | hp
      · rcases checkout_trace_kinds env fs config_path config.repository config.branch
            config.clean config.merge config.resources _ hp with hg | hw
        · simp [Event.isGit] at hg
        · simp [Event.isFsWrite] at hw
      · have hcl := cleanup_trace config.clean keep repo1 _ _ hp
        exact Event.noConfusion hcl
  · intro repo_path tr1 fs1 hco
    simp [run_deployment, hco, hnone]

/-- C7 witness: a Full tool with empty command and a nonempty argument list
behaves as no tool at all on the sample pipeline. -/
theorem C7_witness :
    cfgEmptyToolW.tool.command = none ∧
    (∀ (env2 : Env) (fs2 : FS) (repo : PathBuf) (args : List String),
      execute_tool env2 cfgEmptyToolW.tool.effectiveCommand args repo fs2 =
        ⟨.ok 0, [], fs2⟩) ∧
    (∀ t a rp, Event.spawnTool t a rp ∉
      (run_deployment envW fsW cfgPathW cfgEmptyToolW false).trace) ∧
    (∀ (repo_path : PathBuf) (tr1 : List Event) (fs1 : FS),
      checkout_repository envW fsW cfgPathW cfgEmptyToolW.repository cfgEmptyToolW.branch
          cfgEmptyToolW.clean cfgEmptyToolW.merge cfgEmptyToolW.resources =
        ⟨.ok repo_path, tr1, fs1⟩ →
      (run_deployment envW fsW cfgPathW cfgEmptyToolW false).result = .ok ()) :=
  C7_empty_tool_succeeds envW fsW cfgPathW cfgEmptyToolW false rfl

/-- A successful copy leaves the source contents at the destination key,
whatever was there before. -/
theorem copy_overwrites (g : FS) (s d : PathBuf) (v : Nat) (g2 : FS)
    (h1 : g.lookupFile (g.resolve s) = some v) (h2 : FS.copy g s d = .ok g2) :
    g2.lookupFile (g.resolve d) = some v := by
  unfold FS.copy at h2
  rw [h1] at h2
  injection h2 with h3
  subst h3
  simp [FS.lookupFile]

/-- C8: with clean false, an existing .git marker in the current directory
and merge false, the checkout is exactly the resource copy into the current
directory: no git event occurs in its trace, and a successful copy
overwrites the destination with the source contents regardless of what was
there before. -/
theorem C8_reuse_no_git (env : Env) (fs : FS) (config_path : PathBuf)
    (url branch : String) (resources : List Resource)
    (hgit : fs.pathExists (fs.resolve (PathBuf.join ⟨true, fs.cwd⟩ ⟨false, [".git"]⟩)) = true) :
    (checkout_repository env fs config_path url branch false false resources =
      match (copy_resources fs config_path ⟨true, fs.cwd⟩ resources).result with
      | .error e =>
        ⟨.error e, (copy_resources fs config_path ⟨true, fs.cwd⟩ resources).trace,
         (copy_resources fs config_path ⟨true, fs.cwd⟩ resources).fs⟩
      | .ok _ =>
        ⟨.ok ⟨true, fs.cwd⟩, (copy_resources fs config_path ⟨true, fs.cwd⟩ resources).trace,
         (copy_resources fs config_path ⟨true, fs.cwd⟩ resources).fs⟩) ∧
    (∀ e ∈ (checkout_repository env fs config_path url branch false false resources).trace,
      e.isGit = false) ∧
    (∀ (g : FS) (s d : PathBuf) (v : Nat) (g2 : FS),
      g.lookupFile (g.resolve s) = some v → FS.copy g s d = .ok g2 →
      g2.lookupFile (g.resolve d) = some v) := by
  have h1 : checkoutPhase1 env fs url branch false false ⟨true, fs.cwd⟩ = ⟨.ok (), [], fs⟩ := by
    simp [checkoutPhase1, hgit]
  have h2 : checkoutPhase2 env branch false false ⟨true, fs.cwd⟩ fs = ⟨.ok (), [], fs⟩ := by
    simp [checkoutPhase2]
  have heq : checkout_repository env fs config_path url branch false false resources =
      match (copy_resources fs config_path ⟨true, fs.cwd⟩ resources).result with
      | .error e =>
        ⟨.error e, (copy_resources fs config_path ⟨true, fs.cwd⟩ resources).trace,
         (copy_resources fs config_path ⟨true, fs.cwd⟩ resources).fs⟩
      | .ok _ =>
        ⟨.ok ⟨true, fs.cwd⟩, (copy_resources fs config_path ⟨true, fs.cwd⟩ resources).trace,
         (copy_resources fs config_path ⟨true, fs.cwd⟩ resources).fs⟩ := by
    simp only [checkout_repository, determine_target_path, Bool.false_eq_true, if_false, h1, h2]
    cases hres : (copy_resources fs config_path ⟨true, fs.cwd⟩ resources).result <;>
      simp [hres]
  refine ⟨heq, fun e he => ?_, fun g s d v g2 ha hb => copy_overwrites g s d v g2 ha hb⟩
  rw [heq] at he
  have hw : e.isFsWrite = true := by
    cases hres : (copy_resources fs config_path ⟨true, fs.cwd⟩ resources).result <;>
      rw [hres] at he <;>
      exact copyLoop_trace_write (configDirOf config_path) ⟨true, fs.cwd⟩ resources fs e he
  exact isGit_false_of_write hw

/-- C8 witness: the second run over an existing checkout copies a.txt again
with no git event, and the overwrite fact holds at the stale file. -/
theorem C8_witness :
    (checkout_repository envW fsW cfgPathW "url" "main" false false [rGoodW] =
      match (copy_resources fsW cfgPathW ⟨true, fsW.cwd⟩ [rGoodW]).result with
      | .error e =>
        ⟨.error e, (copy_resources fsW cfgPathW ⟨true, fsW.cwd⟩ [rGoodW]).trace,
         (copy_resources fsW cfgPathW ⟨true, fsW.cwd⟩ [rGoodW]).fs⟩
      | .ok _ =>
        ⟨.ok ⟨true, fsW.cwd⟩, (copy_resources fsW cfgPathW ⟨true, fsW.cwd⟩ [rGoodW]).trace,
         (copy_resources fsW cfgPathW ⟨true, fsW.cwd⟩ [rGoodW]).fs⟩) ∧
    (∀ e ∈ (checkout_repository envW fsW cfgPathW "url" "main" false false [rGoodW]).trace,
      e.isGit = false) ∧
    (∀ (g : FS) (s d : PathBuf) (v : Nat) (g2 : FS),
      g.lookupFile (g.resolve s) = some v → FS.copy g s d = .ok g2 →
      g2.lookupFile (g.resolve d) = some v) :=
  C8_reuse_no_git envW fsW cfgPathW "url" "main" [rGoodW] (by decide)

/-- C9: with clean and merge both set, once the fresh clone succeeds an
update is additionally performed against the just-cloned uuid directory:
the checkout trace is the clone event followed by the full update trace
performed on the post-clone filesystem, then possibly copy events. -/
theorem C9_clean_merge_updates (env : Env) (fs : FS) (config_path : PathBuf)
    (url branch : String) (resources : List Resource)
    (hclone : env.cloneExit = some 0) :
    ∃ rest,
      (checkout_repository env fs config_path url branch true true resources).trace =
        Event.gitClone url branch ⟨true, fs.cwd ++ [env.uuid]⟩ ::
          ((update_repository env branch ⟨true, fs.cwd ++ [env.uuid]⟩
              (fs.cloneInto ⟨true, fs.cwd ++ [env.uuid]⟩)).trace ++ rest) := by
  have h1 : checkoutPhase1 env fs url branch true true ⟨true, fs.cwd ++ [env.uuid]⟩ =
      ⟨.ok (), [Event.gitClone url branch ⟨true, fs.cwd ++ [env.uuid]⟩],
       fs.cloneInto ⟨true, fs.cwd ++ [env.uuid]⟩⟩ := by
    simp [checkoutPhase1, clone_repository, hclone]
  have h2 : checkoutPhase2 env branch true true ⟨true, fs.cwd ++ [env.uuid]⟩
      (fs.cloneInto ⟨true, fs.cwd ++ [env.uuid]⟩) =
      update_repository env branch ⟨true, fs.cwd ++ [env.uuid]⟩
        (fs.cloneInto ⟨true, fs.cwd ++ [env.uuid]⟩) := by
    simp [checkoutPhase2]
  cases hu : (update_repository env branch ⟨true, fs.cwd ++ [env.uuid]⟩
      (fs.cloneInto ⟨true, fs.cwd ++ [env.uuid]⟩)).result with
  | error e =>
    refine ⟨[], ?_⟩
    simp [checkout_repository, determine_target_path, h1, h2, hu]
  | ok u =>
    refine ⟨(copy_resources
        (update_repository env branch ⟨true, fs.cwd ++ [env.uuid]⟩
          (fs.cloneInto ⟨true, fs.cwd ++ [env.uuid]⟩)).fs
        config_path ⟨true, fs.cwd ++ [env.uuid]⟩ resources).trace, ?_⟩
    simp only [checkout_repository, determine_target_path, if_true, h1, h2, hu]
    cases hres : (copy_resources
        (update_repository env branch ⟨true, fs.cwd ++ [env.uuid]⟩
          (fs.cloneInto ⟨true, fs.cwd ++ [env.uuid]⟩)).fs
        config_path ⟨true, fs.cwd ++ [env.uuid]⟩ resources).result <;>
      simp [hres]

/-- C9 witness: on the sample data with clean and merge set, the trace is
the clone followed by status, fetch, merge. -/
theorem C9_witness :
    ∃ rest,
      (checkout_repository envW fsW cfgPathW "url" "main" true true []).trace =
        Event.gitClone "url" "main" ⟨true, fsW.cwd ++ ["u1"]⟩ ::
          ((update_repository envW "main" ⟨true, fsW.cwd ++ ["u1"]⟩
              (fsW.cloneInto ⟨true, fsW.cwd ++ ["u1"]⟩)).trace ++ rest) :=
  C9_clean_merge_updates envW fsW cfgPathW "url" "main" [] rfl

/-- Creating directories does not change path resolution. -/
theorem mkdirAll_resolve (fs : FS) (p q : PathBuf) :
    (fs.mkdirAll p).resolve q = fs.resolve q := rfl

/-- Creating directories does not change file lookup. -/
theorem mkdirAll_lookupFile (fs : FS) (p : PathBuf) (q : List String) :
    (fs.mkdirAll p).lookupFile q = fs.lookupFile q := rfl

/-- A successful copy never deletes a file: any key mapped before is still
mapped afterwards. -/
theorem copy_keeps_files (g : FS) (s d : PathBuf) (g2 : FS) (q : List String)
    (hcp : FS.copy g s d = .ok g2) (h : g.lookupFile q ≠ none) :
    g2.lookupFile q ≠ none := by
  unfold FS.copy at hcp
  cases hs : g.lookupFile (g.resolve s) with
  | none => rw [hs] at hcp; exact Except.noConfusion hcp
  | some v =>
    rw [hs] at hcp
    injection hcp with h3
    subst h3
    by_cases hq : g.resolve d = q
    · subst hq
      simp [FS.lookupFile]
    · simp only [FS.lookupFile, Option.map_eq_none', ne_eq] at h ⊢
      intro hnone
      apply h
      rw [List.find?_eq_none] at hnone ⊢
      intro x hx hpx
      have hx1 : x.1 = q := by simpa using hpx
      refine hnone x ?_ hpx
      simp only [List.find?_cons, List.mem_cons, List.mem_filter]
      right
      refine ⟨hx, ?_⟩
      simp [hx1, hq]
      exact fun hcon => hq hcon.symm

/-- A single resource copy never deletes a file. -/
theorem copy_single_keeps_files (fs : FS) (cfg tgt : PathBuf) (r : Resource)
    (q : List String) (h : fs.lookupFile q ≠ none) :
    ((copy_single_resource fs cfg tgt r).fs).lookupFile q ≠ none := by
  cases hv1 : validate_path fs (sourcePathOf cfg r) (resourcesDir cfg) with
  | error e1 => simpa [copy_single_resource, hv1] using h
  | ok u1 =>
    cases hv2 : validate_path fs (destPathOf tgt r) tgt with
    | error e2 => simpa [copy_single_resource, hv1, hv2] using h
    | ok u2 =>
      cases hp : (destPathOf tgt r).parent with
      | none =>
        cases hcp : FS.copy fs (sourcePathOf cfg r) (destPathOf tgt r) with
        | error e3 => simpa [copy_single_resource, hv1, hv2, hp, hcp] using h
        | ok fs2 =>
          have h2 := copy_keeps_files fs _ _ fs2 q hcp h
          simpa [copy_single_resource, hv1, hv2, hp, hcp] using h2
      | some par =>
        cases hcp : FS.copy (fs.mkdirAll par) (sourcePathOf cfg r) (destPathOf tgt r) with
        | error e3 =>
          have h2 : ((fs.mkdirAll par)).lookupFile q ≠ none := by
            rw [mkdirAll_lookupFile]; exact h
          simpa [copy_single_resource, hv1, hv2, hp, hcp, mkdirAll_lookupFile] using h
        | ok fs2 =>
          have h1 : (fs.mkdirAll par).lookupFile q ≠ none := by
            rw [mkdirAll_lookupFile]; exact h
          have h2 := copy_keeps_files (fs.mkdirAll par) _ _ fs2 q hcp h1
          simpa [copy_single_resource, hv1, hv2, hp, hcp] using h2

/-- The copy loop stops at the first failing resource: with every earlier
resource succeeding and the next one failing, the loop result is that
failure, the trace ends at the failing resource, and the filesystem is the
one the failing resource left. -/
theorem copyLoop_stop (cfg tgt : PathBuf) (pre : List Resource) :
    ∀ (post : List Resource) (rbad : Resource) (fs fs1 : FS) (tr1 : List Event) (e : Err),
      copyLoop cfg tgt pre fs = ⟨.ok (), tr1, fs1⟩ →
      (copy_single_resource fs1 cfg tgt rbad).result = .error e →
      copyLoop cfg tgt (pre ++ rbad :: post) fs =
        ⟨.error e, tr1 ++ (copy_single_resource fs1 cfg tgt rbad).trace,
         (copy_single_resource fs1 cfg tgt rbad).fs⟩ := by
  induction pre with
  | nil =>
    intro post rbad fs fs1 tr1 e hpre hbad
    simp only [copyLoop, Out.mk.injEq] at hpre
    obtain ⟨-, h2, h3⟩ := hpre
    subst h2
    subst h3
    simp only [List.nil_append, copyLoop, hbad]
  | cons r rest ih =>
    intro post rbad fs fs1 tr1 e hpre hbad
    simp only [copyLoop] at hpre
    cases hr : (copy_single_resource fs cfg tgt r).result with
    | error e1 => simp [hr, Out.mk.injEq] at hpre
    | ok u =>
      simp only [hr, Out.mk.injEq] at hpre
      obtain ⟨hres, htr, hfs⟩ := hpre
      have hrest : copyLoop cfg tgt rest (copy_single_resource fs cfg tgt r).fs =
          ⟨.ok (), (copyLoop cfg tgt rest (copy_single_resource fs cfg tgt r).fs).trace,
           (copyLoop cfg tgt rest (copy_single_resource fs cfg tgt r).fs).fs⟩ := by
        rw [← hres]
      subst hfs
      have hih := ih post rbad (copy_single_resource fs cfg tgt r).fs _ _ e hrest hbad
      have hgoal : copyLoop cfg tgt ((r :: rest) ++ rbad :: post) fs =
          ⟨(copyLoop cfg tgt (rest ++ rbad :: post)
              (copy_single_resource fs cfg tgt r).fs).result,
           (copy_single_resource fs cfg tgt r).trace ++
             (copyLoop cfg tgt (rest ++ rbad :: post)
               (copy_single_resource fs cfg tgt r).fs).trace,
           (copyLoop cfg tgt (rest ++ rbad :: post)
             (copy_single_resource fs cfg tgt r).fs).fs⟩ := by
        simp only [List.cons_append, copyLoop, hr]
        rfl
      subst htr
      rw [hgoal, hih]
      simp [List.append_assoc]

/-- C10: copy_resources processes the resource list in order and stops at
the first failing resource: resources after the failure are not attempted
(the outcome is fully determined by the prefix and the failing resource),
and every file present after the successful prefix is still present. -/
theorem C10_first_failure_stops (fs : FS) (config_path target_path : PathBuf)
    (pre post : List Resource) (rbad : Resource) (tr1 : List Event) (fs1 : FS) (e : Err)
    (hpre : copy_resources fs config_path target_path pre = ⟨.ok (), tr1, fs1⟩)
    (hbad : (copy_single_resource fs1 (configDirOf config_path) target_path rbad).result =
      .error e) :
    copy_resources fs config_path target_path (pre ++ rbad :: post) =
      ⟨.error e,
       tr1 ++ (copy_single_resource fs1 (configDirOf config_path) target_path rbad).trace,
       (copy_single_resource fs1 (configDirOf config_path) target_path rbad).fs⟩ ∧
    ∀ q, fs1.lookupFile q ≠ none →
      ((copy_single_resource fs1 (configDirOf config_path) target_path rbad).fs).lookupFile q ≠
        none := by
  constructor
  · exact copyLoop_stop (configDirOf config_path) target_path pre post rbad fs fs1 tr1 e
      hpre hbad
  · intro q hq
    exact copy_single_keeps_files fs1 (configDirOf config_path) target_path rbad q hq

/-- C10 witness: after a.txt is copied, the traversal resource fails and the
loop stops there, with a.txt still present. -/
theorem C10_witness :
    copy_resources fsW cfgPathW wdW ([rGoodW] ++ rEvilW :: [rGoodW]) =
      ⟨.error (.pathTraversal (destPathOf wdW rEvilW) wdW),
       (copy_resources fsW cfgPathW wdW [rGoodW]).trace ++
         (copy_single_resource (copy_resources fsW cfgPathW wdW [rGoodW]).fs
           (configDirOf cfgPathW) wdW rEvilW).trace,
       (copy_single_resource (copy_resources fsW cfgPathW wdW [rGoodW]).fs
         (configDirOf cfgPathW) wdW rEvilW).fs⟩ ∧
    ∀ q, ((copy_resources fsW cfgPathW wdW [rGoodW]).fs).lookupFile q ≠ none →
      ((copy_single_resource (copy_resources fsW cfgPathW wdW [rGoodW]).fs
        (configDirOf cfgPathW) wdW rEvilW).fs).lookupFile q ≠ none :=
  C10_first_failure_stops fsW cfgPathW wdW [rGoodW] [rGoodW] rEvilW
    (copy_resources fsW cfgPathW wdW [rGoodW]).trace
    (copy_resources fsW cfgPathW wdW [rGoodW]).fs
    (.pathTraversal (destPathOf wdW rEvilW) wdW) (by rfl) (by decide)

/-- A resource whose destination parent exists: a.txt copied to b.txt. -/
def rNewW : Resource := ⟨⟨false, ["a.txt"]⟩, some ⟨false, ["b.txt"]⟩⟩

/-- A path that does not exist cannot be canonicalized. -/
theorem canonicalize_none_of_not_exists {fs : FS} {p : PathBuf}
    (h : fs.pathExists (fs.resolve p) = false) : fs.canonicalize p = none := by
  unfold FS.canonicalize
  by_cases hc : (!p.absolute && p.components.isEmpty) = true
  · rw [if_pos hc]
  · rw [if_neg hc]
    simp [h]

/-- C3 counterexample: a destination that does not yet exist and lies within
the working directory, with a perfectly readable sandboxed source, is still
rejected when its immediate parent directory does not exist: validation
falls back only to the parent, not to the nearest existing ancestor, so the
copy fails with an io error instead of succeeding. -/
theorem C3_counterexample :
    fsW.pathExists (fsW.resolve (destPathOf wdW rDeepW)) = false ∧
    fsW.canonicalize wdW = some ["home", "wd"] ∧
    (fsW.resolve wdW).isPrefixOf (fsW.resolve (destPathOf wdW rDeepW)) = true ∧
    validate_path fsW (sourcePathOf cfgDirW rDeepW) (resourcesDir cfgDirW) = .ok () ∧
    fsW.lookupFile (fsW.resolve (sourcePathOf cfgDirW rDeepW)) = some 7 ∧
    copy_single_resource fsW cfgDirW wdW rDeepW = ⟨.error .ioError, [], fsW⟩ ∧
    (copy_single_resource fsW cfgDirW wdW rDeepW).result ≠ .ok () := by
  decide

/-- C3 (amended): a not-yet-existing destination is accepted only through
its immediate parent: when that parent exists and canonicalizes inside the
working directory, validation accepts it, the (already existing) parent
directories are created as a no-op, and the copy succeeds for a readable
sandboxed source, writing the source contents at the destination. When the
parent does not exist either, validation fails with an io error even for an
in-sandbox destination. -/
theorem C3_parent_resolution (fs : FS) (config_dir target_path : PathBuf) (r : Resource)
    (v : Nat) (par : PathBuf) (cpar cb : List String)
    (hdne : fs.pathExists (fs.resolve (destPathOf target_path r)) = false)
    (hpar : (destPathOf target_path r).parent = some par)
    (hcpar : fs.canonicalize par = some cpar)
    (hcb : fs.canonicalize target_path = some cb)
    (hin : cb.isPrefixOf cpar = true)
    (hsrc : validate_path fs (sourcePathOf config_dir r) (resourcesDir config_dir) = .ok ())
    (hfile : fs.lookupFile (fs.resolve (sourcePathOf config_dir r)) = some v) :
    (copy_single_resource fs config_dir target_path r).result = .ok () ∧
    ((copy_single_resource fs config_dir target_path r).fs).lookupFile
      (fs.resolve (destPathOf target_path r)) = some v := by
  have hdcan : fs.canonicalize (destPathOf target_path r) = none :=
    canonicalize_none_of_not_exists hdne
  have hvd : validate_path fs (destPathOf target_path r) target_path = .ok () := by
    simp [validate_path, resolvedVia, hdcan, hpar, hcpar, hcb, hin]
  have hlk : (fs.mkdirAll par).lookupFile
      ((fs.mkdirAll par).resolve (sourcePathOf config_dir r)) = some v := by
    rw [mkdirAll_lookupFile, mkdirAll_resolve]; exact hfile
  cases hcp : FS.copy (fs.mkdirAll par) (sourcePathOf config_dir r)
      (destPathOf target_path r) with
  | error e3 =>
    exfalso
    unfold FS.copy at hcp
    rw [hlk] at hcp
    exact Except.noConfusion hcp
  | ok fs2 =>
    have hover := copy_overwrites (fs.mkdirAll par) (sourcePathOf config_dir r)
      (destPathOf target_path r) v fs2 hlk hcp
    have hfs2 : (copy_single_resource fs config_dir target_path r).fs = fs2 := by
      simp [copy_single_resource, hsrc, hvd, hpar, hcp]
    refine ⟨?_, ?_⟩
    · simp [copy_single_resource, hsrc, hvd, hpar, hcp]
    · rw [hfs2, ← mkdirAll_resolve fs par (destPathOf target_path r)]
      exact hover

/-- C3 witness: copying a.txt to the fresh destination b.txt, whose parent
is the working directory itself, succeeds and writes the contents. -/
theorem C3_witness :
    (copy_single_resource fsW cfgDirW wdW rNewW).result = .ok () ∧
    ((copy_single_resource fsW cfgDirW wdW rNewW).fs).lookupFile
      (fsW.resolve (destPathOf wdW rNewW)) = some 7 :=
  C3_parent_resolution fsW cfgDirW wdW rNewW 7 ⟨true, ["home", "wd"]⟩
    ["home", "wd"] ["home", "wd"] (by decide) (by decide) (by decide) (by decide)
    (by decide) (by decide) (by decide)

end UDeploy
